import Mathlib

/-!
# Verification of the thread-naming utilities (threadnames.cpp)

Shallow embedding of the thread-naming utilities of the X1Coin repository:
per-thread OS-level and internal names (ThreadRename, ThreadSetInternalName,
ThreadGetInternalName, GetThreadName) and the pool-wide rename barrier
(RenameThreadPool).

Threads are identified by natural numbers.  Per-thread state (the OS-level
name set through the platform call, and the thread_local internal name
g_thread_name) is modelled as functions from thread ids to strings.  The
preprocessor configuration is modelled by a record of Booleans, one per
macro tested in the source.  The uninitialised stack buffer of GetThreadName
is modelled by an explicit parameter holding whatever bytes the buffer
happens to contain.
-/

set_option autoImplicit false
set_option linter.unusedVariables false

/-- The platform macros tested by the preprocessor in threadnames.cpp.
Each field tells whether the corresponding macro is defined for the build. -/
structure Platform where
  /-- PR_SET_NAME is available (Linux prctl). -/
  prSet : Bool
  /-- PR_GET_NAME is available (Linux prctl). -/
  prGet : Bool
  /-- FreeBSD, OpenBSD or DragonFly (pthread_set_name_np). -/
  bsd : Bool
  /-- MAC_OSX, tested by the setter. -/
  macOsx : Bool
  /-- MAC_OSX_, the distinct macro tested by the getter. -/
  macOsxU : Bool
deriving DecidableEq

/-- Process-wide per-thread name state: the OS-level thread name as the
kernel stores it, and the thread_local g_thread_name of each thread. -/
structure ProcState where
  /-- OS-level name of each thread, as stored by the platform call. -/
  osName : Nat → String
  /-- The thread_local internal name g_thread_name of each thread. -/
  g_thread_name : Nat → String

/-- Static SetThreadName of threadnames.cpp: sets the OS-level thread name.
On PR_SET_NAME platforms only the first 15 characters are used
(16 minus the NUL terminator, as the source comment says); on the BSDs and
macOS the name is handed to the pthread call; otherwise the call is a
no-op.  Does not touch the internal name. -/
def SetThreadName (p : Platform) (t : Nat) (name : String) (s : ProcState) : ProcState :=
  if p.prSet then
    { s with osName := Function.update s.osName t (name.take 15) }
  else if p.bsd then
    { s with osName := Function.update s.osName t name }
  else if p.macOsx then
    { s with osName := Function.update s.osName t name }
  else
    s

/-- util::GetThreadName of threadnames.cpp: reads the OS-level thread name
into a 16-byte stack buffer.  Only a PR_GET_NAME or a MAC_OSX_ branch fills
the buffer; on every other platform the buffer keeps its uninitialised
contents, modelled by the parameter uninit, and those bytes are returned. -/
def GetThreadName (p : Platform) (uninit : String) (s : ProcState) (t : Nat) : String :=
  if p.prGet then s.osName t
  else if p.macOsxU then s.osName t
  else uninit

/-- util::ThreadGetInternalName in the HAVE_THREAD_LOCAL build: returns the
calling thread's g_thread_name. -/
def ThreadGetInternalName (s : ProcState) (t : Nat) : String :=
  s.g_thread_name t

/-- Static SetInternalName in the HAVE_THREAD_LOCAL build: stores the name
into the calling thread's g_thread_name.  Does not affect the process-level
name. -/
def SetInternalName (t : Nat) (name : String) (s : ProcState) : ProcState :=
  { s with g_thread_name := Function.update s.g_thread_name t name }

/-- util::ThreadGetInternalName in the build without HAVE_THREAD_LOCAL:
returns the static empty_string. -/
def ThreadGetInternalNameNoTL (s : ProcState) (t : Nat) : String :=
  ""

/-- Static SetInternalName in the build without HAVE_THREAD_LOCAL: the body
is empty, the state is unchanged. -/
def SetInternalNameNoTL (t : Nat) (name : String) (s : ProcState) : ProcState :=
  s

/-- util::ThreadRename: SetThreadName followed by SetInternalName
(HAVE_THREAD_LOCAL build). -/
def ThreadRename (p : Platform) (t : Nat) (name : String) (s : ProcState) : ProcState :=
  SetInternalName t name (SetThreadName p t name s)

/-- util::ThreadRename in the build without HAVE_THREAD_LOCAL. -/
def ThreadRenameNoTL (p : Platform) (t : Nat) (name : String) (s : ProcState) : ProcState :=
  SetInternalNameNoTL t name (SetThreadName p t name s)

/-- util::ThreadSetInternalName (HAVE_THREAD_LOCAL build). -/
def ThreadSetInternalName (t : Nat) (name : String) (s : ProcState) : ProcState :=
  SetInternalName t name s

/-- A process state with every OS-level and internal name empty: the state
of a fresh process before any rename. -/
def initProc : ProcState :=
  { osName := fun _ => "", g_thread_name := fun _ => "" }

/-- A build with no platform naming capability at all (for example a BSD
getter build: the getter has no BSD branch, and an actual macOS build,
where MAC_OSX is defined but MAC_OSX_ is not, behaves the same way on the
getter side). -/
def noGetPlatform : Platform :=
  { prSet := false, prGet := false, bsd := true, macOsx := false, macOsxU := false }

/-- The Linux build: PR_SET_NAME and PR_GET_NAME both available. -/
def linuxPlatform : Platform :=
  { prSet := true, prGet := true, bsd := false, macOsx := false, macOsxU := false }

/-!
## The pool rename barrier, util::RenameThreadPool

The barrier interacts with the pool and the workers only through a few
observations: the values returned by successive tp.size() calls, the values
read from the atomic doneCnt at successive poll iterations, and, per
submitted future, whether f.valid() and whether f.wait_for timed out.
These observations are passed as explicit streams; the loops themselves are
translated directly from the source, with an explicit fuel in place of real
time (the source loops have no iteration bound of their own).
-/

/-- The name a rename task gives its worker thread:
strprintf of percent-s dash percent-d applied to baseName and i. -/
def taskThreadName (baseName : String) (i : Nat) : String :=
  baseName ++ "-" ++ toString i

/-- The submission loop of util::RenameThreadPool:
for i starting at 0, while i is less than tp.size() re-read at each
iteration (the stream sz gives the value returned by the size call made at
loop counter i), push one task for index i.  Returns the list of submitted
indices, or none when the fuel runs out before the loop exits. -/
def submitLoopFuel (sz : Nat → Nat) : Nat → Nat → Option (List Nat)
  | 0, _ => none
  | fuel + 1, i =>
    if i < sz i then (submitLoopFuel sz fuel (i + 1)).map (fun l => i :: l)
    else some []

/-- The submission loop started at index 0. -/
def submitLoop (fuel : Nat) (sz : Nat → Nat) : Option (List Nat) :=
  submitLoopFuel sz fuel 0

/-- The guard of the do-while poll loop, exactly as in the source:
the loop keeps going while doneCnt is less than futures.size() and doneCnt
is less than tp.size(). -/
def pollContinue (done submitted size : Nat) : Bool :=
  decide (done < submitted) && decide (done < size)

/-- The do-while poll loop: at iteration k (after the short sleep) the
barrier reads doneCnt as doneSeq k and tp.size() as sizeSeq k, and loops
while pollContinue holds.  Returns the iteration index at which the loop
exits, or none when the fuel runs out first. -/
def pollLoopAux (submitted : Nat) (doneSeq sizeSeq : Nat → Nat) : Nat → Nat → Option Nat
  | 0, _ => none
  | fuel + 1, k =>
    if pollContinue (doneSeq k) submitted (sizeSeq k) then
      pollLoopAux submitted doneSeq sizeSeq fuel (k + 1)
    else some k

/-- The poll loop started at iteration 0. -/
def pollLoop (submitted : Nat) (doneSeq sizeSeq : Nat → Nat) (fuel : Nat) : Option Nat :=
  pollLoopAux submitted doneSeq sizeSeq fuel 0

/-- What the barrier observes of one submitted future in the final check:
whether f.valid() holds and whether f.wait_for of the fixed 2000 ms timeout
returned future_status timeout. -/
structure FutureObs where
  valid : Bool
  timedOut : Bool
deriving DecidableEq

/-- The warning line LogPrintf produces on a timed-out future: the function
name, the base name and the slot index. -/
def timeoutLogMsg (baseName : String) (i : Nat) : String :=
  "RenameThreadPool: " ++ baseName ++ "-" ++ toString i ++ " timed out\n"

/-- The final per-future loop of util::RenameThreadPool: walk the futures
map in index order; on the first future that is valid and whose bounded
wait timed out, log one warning, call notify_all once more and break.
Returns the list of emitted log lines and the number of notify_all calls
made inside the loop. -/
def finalCheck (baseName : String) : List (Nat × FutureObs) → List String × Nat
  | [] => ([], 0)
  | (i, f) :: rest =>
    if f.valid && f.timedOut then ([timeoutLogMsg baseName i], 1)
    else finalCheck baseName rest

/-- Everything util::RenameThreadPool did by the time it returns. -/
structure PoolRenameOutcome where
  /-- The indices of the submitted tasks (the keys of the futures map). -/
  submitted : List Nat
  /-- The poll iteration at which the do-while loop exited. -/
  pollIterations : Nat
  /-- The warning lines logged by the final check. -/
  logs : List String
  /-- notify_all calls made inside the final check (beyond the one
  unconditional broadcast after the poll loop). -/
  extraNotifies : Nat
deriving DecidableEq

/-- util::RenameThreadPool as a whole: run the submission loop against the
stream of size observations subSizes, then the poll loop against the
doneCnt observations doneSeq and the size observations pollSizes, then
notify_all once, then the final per-future check with the per-future
observations futObs.  none means a loop never exited within the fuel,
i.e. the call did not return in that much time. -/
def RenameThreadPool (fuel : Nat) (baseName : String) (subSizes : Nat → Nat)
    (doneSeq pollSizes : Nat → Nat) (futObs : Nat → FutureObs) :
    Option PoolRenameOutcome :=
  match submitLoop fuel subSizes with
  | none => none
  | some idxs =>
    match pollLoop idxs.length doneSeq pollSizes fuel with
    | none => none
    | some k =>
      let r := finalCheck baseName (idxs.map (fun i => (i, futObs i)))
      some { submitted := idxs, pollIterations := k, logs := r.1, extraNotifies := r.2 }

/-!
## The worker-side transition system

Each rename task runs, on its worker thread, the sequence: ThreadRename
with the suffixed name, then doneCnt increment (under the shared mutex),
then park on the shared condition variable.  The steps of the N workers
interleave arbitrarily; the doneCnt increment is atomic.  The program
counter of worker i is 0 before the task runs, 1 after the rename, 2 after
the increment, 3 once parked.
-/

/-- Shared state of one barrier invocation as the workers see it: each
worker's program counter, the atomic doneCnt, and each worker thread's
internal name. -/
structure BarrierState (N : Nat) where
  /-- Program counter of each worker: 0 not run, 1 renamed, 2 counted,
  3 parked. -/
  pc : Fin N → Nat
  /-- The shared atomic done counter. -/
  doneCnt : Nat
  /-- The internal name of each worker thread. -/
  names : Fin N → String

/-- One atomic step of some worker's rename task, in the program order of
the task body: rename, then increment, then park. -/
inductive WorkerStep (baseName : String) {N : Nat} :
    BarrierState N → BarrierState N → Prop
  | rename (i : Fin N) (s : BarrierState N) : s.pc i = 0 →
      WorkerStep baseName s
        { pc := Function.update s.pc i 1, doneCnt := s.doneCnt,
          names := Function.update s.names i (taskThreadName baseName i.val) }
  | incDone (i : Fin N) (s : BarrierState N) : s.pc i = 1 →
      WorkerStep baseName s
        { pc := Function.update s.pc i 2, doneCnt := s.doneCnt + 1,
          names := s.names }
  | park (i : Fin N) (s : BarrierState N) : s.pc i = 2 →
      WorkerStep baseName s
        { pc := Function.update s.pc i 3, doneCnt := s.doneCnt,
          names := s.names }

/-- The state at barrier entry: no task has run, doneCnt is 0, the workers
carry whatever internal names they had before. -/
def initBarrier (N : Nat) (names0 : Fin N → String) : BarrierState N :=
  { pc := fun _ => 0, doneCnt := 0, names := names0 }

/-- States reachable from barrier entry by interleaved worker steps. -/
inductive BarrierReachable (baseName : String) {N : Nat} (names0 : Fin N → String) :
    BarrierState N → Prop
  | init : BarrierReachable baseName names0 (initBarrier N names0)
  | step {s s' : BarrierState N} : BarrierReachable baseName names0 s →
      WorkerStep baseName s s' → BarrierReachable baseName names0 s'

/-- Concrete run used to exercise the ordering theorem: one worker, after
its rename step. -/
def demoBarrierS1 : BarrierState 1 :=
  { pc := Function.update (fun _ => 0) (0 : Fin 1) 1, doneCnt := 0,
    names := Function.update (fun _ => "") (0 : Fin 1) (taskThreadName "w" 0) }

/-- The same run after the worker's doneCnt increment. -/
def demoBarrierS2 : BarrierState 1 :=
  { pc := Function.update demoBarrierS1.pc (0 : Fin 1) 2, doneCnt := 1,
    names := demoBarrierS1.names }

/-- A size stream that reports 2 slots at the first size call of the
submission loop and 1 slot afterwards: a pool that shrinks while the
submission loop is running. -/
def shrinkDuringSubmit : Nat → Nat :=
  fun k => if k = 0 then 2 else 1

/-!
## Helper lemmas
-/

/-- SetThreadName never touches the thread_local internal names, whatever
the platform. -/
theorem setThreadName_g_thread_name (p : Platform) (t : Nat) (name : String) (s : ProcState) :
    (SetThreadName p t name s).g_thread_name = s.g_thread_name := by
  unfold SetThreadName
  split
  · rfl
  · split
    · rfl
    · split
      · rfl
      · rfl

/-- The poll loop guard fails exactly when doneCnt has reached the smaller
of futures.size() and tp.size(). -/
theorem pollContinue_min_iff (d s z : Nat) :
    pollContinue d s z = false ↔ min s z ≤ d := by
  simp only [pollContinue, Bool.and_eq_false_iff, decide_eq_false_iff_not, Nat.not_lt]
  omega

/-- The poll loop returns within the fuel as soon as some observation
within the fuel falsifies the guard. -/
theorem pollLoopAux_isSome (submitted : Nat) (doneSeq sizeSeq : Nat → Nat) :
    ∀ (fuel k : Nat),
      (∃ j, j < fuel ∧ pollContinue (doneSeq (k + j)) submitted (sizeSeq (k + j)) = false) →
      (pollLoopAux submitted doneSeq sizeSeq fuel k).isSome = true
  | 0, k, h => by
    obtain ⟨j, hj, _⟩ := h
    exact absurd hj (Nat.not_lt_zero j)
  | fuel + 1, k, h => by
    obtain ⟨j, hj, hc⟩ := h
    by_cases hk : pollContinue (doneSeq k) submitted (sizeSeq k) = true
    · have hstep : pollLoopAux submitted doneSeq sizeSeq (fuel + 1) k =
          pollLoopAux submitted doneSeq sizeSeq fuel (k + 1) := by
        simp [pollLoopAux, hk]
      rw [hstep]
      apply pollLoopAux_isSome submitted doneSeq sizeSeq fuel (k + 1)
      match j, hj, hc with
      | 0, _, hc =>
        rw [Nat.add_zero] at hc
        rw [hk] at hc
        exact absurd hc (by simp)
      | j' + 1, hj, hc =>
        exact ⟨j', by omega, by rw [show k + 1 + j' = k + (j' + 1) by omega]; exact hc⟩
    · simp [pollLoopAux, hk]

/-- The poll loop never exits when the done counter stays at 0 while one
task was submitted and the pool keeps one slot: the guard holds at every
iteration. -/
theorem pollLoopAux_stuck :
    ∀ (fuel k : Nat), pollLoopAux 1 (fun _ => 0) (fun _ => 1) fuel k = none
  | 0, _ => rfl
  | fuel + 1, k => by
    have ih := pollLoopAux_stuck fuel (k + 1)
    simp [pollLoopAux, pollContinue, ih]

/-- The submission loop against a constant pool size N submits exactly the
indices i with i < N, provided the fuel covers the N + 1 size calls. -/
theorem submitLoopFuel_const (N : Nat) :
    ∀ (fuel i : Nat), N - i + 1 ≤ fuel →
      submitLoopFuel (fun _ => N) fuel i = some (List.range' i (N - i))
  | 0, i, h => absurd h (by omega)
  | fuel + 1, i, h => by
    by_cases hi : i < N
    · have ih := submitLoopFuel_const N fuel (i + 1) (by omega)
      simp only [submitLoopFuel, hi, if_pos, ih]
      rw [show N - i = (N - (i + 1)) + 1 by omega]
      rw [List.range'_succ]
      rfl
    · simp only [submitLoopFuel, hi, if_neg, if_false]
      rw [show N - i = 0 by omega]
      rfl

/-!
## The claims
-/

/-- C1.  After util::ThreadRename with some name, util::ThreadGetInternalName
on the same thread returns exactly that name, for every name string, with no
truncation; only the OS-level name is truncated (to 15 characters on the
prctl platform). -/
theorem threadRename_internalName_exact (p : Platform) (t : Nat) (name : String)
    (s : ProcState) :
    ThreadGetInternalName (ThreadRename p t name s) t = name ∧
    (ThreadRename linuxPlatform t name s).osName t = name.take 15 := by
  constructor
  · simp [ThreadGetInternalName, ThreadRename, SetInternalName, Function.update_same]
  · simp [ThreadRename, SetInternalName, SetThreadName, linuxPlatform, Function.update_same]

/-- C8.  Internal names are thread-local: a rename or an internal-name set
performed by thread t leaves the internal name of every other thread u
unchanged. -/
theorem internalName_thread_local_frame (p : Platform) (t u : Nat) (name : String)
    (s : ProcState) (h : t ≠ u) :
    ThreadGetInternalName (ThreadRename p t name s) u = ThreadGetInternalName s u ∧
    ThreadGetInternalName (ThreadSetInternalName t name s) u = ThreadGetInternalName s u := by
  constructor
  · simp [ThreadGetInternalName, ThreadRename, SetInternalName,
      setThreadName_g_thread_name, Function.update_noteq (Ne.symm h)]
  · simp [ThreadGetInternalName, ThreadSetInternalName, SetInternalName,
      Function.update_noteq (Ne.symm h)]

/-- Witness for C8 at concrete threads 0 and 1. -/
theorem internalName_thread_local_frame_witness :
    ThreadGetInternalName (ThreadRename linuxPlatform 0 "X" initProc) 1 =
      ThreadGetInternalName initProc 1 ∧
    ThreadGetInternalName (ThreadSetInternalName 0 "X" initProc) 1 =
      ThreadGetInternalName initProc 1 :=
  internalName_thread_local_frame linuxPlatform 0 1 "X" initProc (by decide)

/-- C10.  Without HAVE_THREAD_LOCAL, internal naming is disabled entirely:
SetInternalName is a no-op on the state, and ThreadGetInternalName returns
the empty string always, in particular after any ThreadRename. -/
theorem no_thread_local_disables_internal_names :
    (∀ (t : Nat) (name : String) (s : ProcState), SetInternalNameNoTL t name s = s) ∧
    (∀ (s : ProcState) (t : Nat), ThreadGetInternalNameNoTL s t = "") ∧
    (∀ (p : Platform) (t : Nat) (name : String) (s : ProcState),
      ThreadGetInternalNameNoTL (ThreadRenameNoTL p t name s) t = "") :=
  ⟨fun _ _ _ => rfl, fun _ _ => rfl, fun _ _ _ _ => rfl⟩

/-- C3.  On a platform with no native get-thread-name branch (the BSDs, or
a macOS build, since the getter tests MAC_OSX_ while the setter tests
MAC_OSX), util::GetThreadName returns the uninitialised stack buffer, not
the empty string, even though the OS-level name had been set through
pthread_set_name_np. -/
theorem getThreadName_unsupported_returns_buffer :
    GetThreadName noGetPlatform "garbage" (ThreadRename noGetPlatform 0 "net" initProc) 0 =
      "garbage" ∧
    ("garbage" : String) ≠ "" ∧
    (ThreadRename noGetPlatform 0 "net" initProc).osName 0 = "net" := by
  refine ⟨rfl, by decide, ?_⟩
  simp [ThreadRename, SetInternalName, SetThreadName, noGetPlatform, Function.update_same]

/-- Counterexample for C4: with 2 tasks submitted, the done count at 1 and
the pool size at 1, the poll loop exits on its first check although the
done count has not reached the number of submitted tasks, so the exit
condition is not the conjunction of the two comparisons. -/
theorem pollLoop_exit_not_conjunction :
    pollLoop 2 (fun _ => 1) (fun _ => 1) 5 = some 0 ∧ ¬((2 : Nat) ≤ 1 ∧ (1 : Nat) ≤ 1) :=
  ⟨rfl, by decide⟩

/-- C4 as amended.  The do-while guard keeps the loop running while the done
count is below the number of submitted tasks AND below the pool size, so the
loop exits as soon as the done count reaches EITHER bound: the exit
condition is the disjunction of the two comparisons, not their
conjunction. -/
theorem pollLoop_exit_condition (d s z : Nat) :
    pollContinue d s z = false ↔ (s ≤ d ∨ z ≤ d) := by
  simp only [pollContinue, Bool.and_eq_false_iff, decide_eq_false_iff_not, Nat.not_lt]

/-- C2.  The poll loop exits as soon as some observation has the done count
at least the minimum of the number of submitted tasks and the pool size
observed at that same iteration; in particular a pool size that shrank
below the number of submitted tasks does not keep the loop running. -/
theorem pollLoop_exits_at_min_bound (submitted : Nat) (doneSeq sizeSeq : Nat → Nat)
    (fuel k : Nat) (hk : k < fuel)
    (hmin : min submitted (sizeSeq k) ≤ doneSeq k) :
    (pollLoop submitted doneSeq sizeSeq fuel).isSome = true := by
  apply pollLoopAux_isSome
  exact ⟨k, hk, by rw [Nat.zero_add]; exact (pollContinue_min_iff _ _ _).mpr hmin⟩

/-- Witness for C2: three tasks were submitted, the pool then shrank to one
slot and only one task got to run; one poll observation suffices for the
loop to exit. -/
theorem pollLoop_exits_at_min_bound_witness :
    (pollLoop 3 (fun _ => 1) (fun _ => 1) 1).isSome = true :=
  pollLoop_exits_at_min_bound 3 (fun _ => 1) (fun _ => 1) 1 0 (by decide) (by decide)

/-- Counterexample for C6: with a pool that reports 2 slots at the first
size call of the submission loop and 1 slot at the second, the loop submits
a single task, not the 2 tasks of the entry snapshot: tp.size() is re-read
at every iteration, not snapshotted once. -/
theorem submitLoop_not_entry_snapshot :
    submitLoop 10 shrinkDuringSubmit = some [0] ∧
    shrinkDuringSubmit 0 = 2 ∧ ([0] : List Nat).length ≠ 2 :=
  ⟨rfl, rfl, by decide⟩

/-- C6 as amended.  The submission loop submits one task per index i,
starting at 0, for as long as i is below tp.size() re-read at that
iteration; when the pool size observations are constant at N throughout the
loop this is exactly one task per slot index i in the interval from 0 to N,
the pool size at barrier entry. -/
theorem submitLoop_constant_size (N fuel : Nat) (h : N < fuel) :
    submitLoop fuel (fun _ => N) = some (List.range N) := by
  unfold submitLoop
  rw [submitLoopFuel_const N fuel 0 (by omega)]
  rw [Nat.sub_zero, List.range_eq_range']

/-- Witness for C6 as amended, at a pool of constant size 3. -/
theorem submitLoop_constant_size_witness :
    submitLoop 10 (fun _ => 3) = some (List.range 3) :=
  submitLoop_constant_size 3 10 (by decide)

/-- Against a constant pool size of 1, a terminating submission loop has
submitted exactly the one task of index 0. -/
theorem submitLoop_one : ∀ (fuel : Nat) (idxs : List Nat),
    submitLoop fuel (fun _ => 1) = some idxs → idxs = [0]
  | 0, idxs, h => by simp [submitLoop, submitLoopFuel] at h
  | 1, idxs, h => by simp [submitLoop, submitLoopFuel] at h
  | fuel + 2, idxs, h => by
    simp [submitLoop, submitLoopFuel] at h
    exact h.symm

/-- With one slot, one submitted task and a worker stuck before its
done-count increment, util::RenameThreadPool does not return within any
time budget: the poll loop guard holds at every iteration. -/
theorem renameThreadPool_stuck_any_fuel (fuel : Nat) :
    RenameThreadPool fuel "net" (fun _ => 1) (fun _ => 0) (fun _ => 1)
      (fun _ => { valid := true, timedOut := false }) = none := by
  unfold RenameThreadPool
  cases hs : submitLoop fuel (fun _ => 1) with
  | none => rfl
  | some idxs =>
    have hidx : idxs = [0] := submitLoop_one fuel idxs hs
    subst hidx
    have hpoll : pollLoop 1 (fun _ => 0) (fun _ => 1) fuel = none :=
      pollLoopAux_stuck fuel 0
    simp [hpoll]

/-- Counterexample for C7: one task was submitted against a pool of one
slot, and the worker is stuck before its done-count increment (it never
reaches the parked state); the done count stays at 0 while the pool size
stays at 1, so the poll loop never exits, here within a budget of a million
poll iterations (about three hours of 10 ms sleeps, far beyond the claimed
poll-interval-times-small-constant plus one fixed timeout):
util::RenameThreadPool does not return. -/
theorem renameThreadPool_hangs_on_stuck_worker :
    RenameThreadPool 1000000 "net" (fun _ => 1) (fun _ => 0) (fun _ => 1)
      (fun _ => { valid := true, timedOut := false }) = none :=
  renameThreadPool_stuck_any_fuel 1000000

/-- C7 as amended.  util::RenameThreadPool returns within the time budget
provided some poll observation within the budget has the done count at or
above the minimum of the number of submitted tasks and the observed pool
size — in particular when a worker incremented the done count and then
never parked, or when the pool shrank after dropping a task.  Without such
an observation (a worker stuck before its increment while the pool size
stays above the done count) the poll loop spins forever. -/
theorem renameThreadPool_returns_when_done_bound_met (fuel : Nat) (baseName : String)
    (subSizes doneSeq pollSizes : Nat → Nat) (futObs : Nat → FutureObs)
    (idxs : List Nat) (k : Nat)
    (hsub : submitLoop fuel subSizes = some idxs)
    (hk : k < fuel)
    (hmin : min idxs.length (pollSizes k) ≤ doneSeq k) :
    (RenameThreadPool fuel baseName subSizes doneSeq pollSizes futObs).isSome = true := by
  have hpoll : (pollLoop idxs.length doneSeq pollSizes fuel).isSome = true := by
    apply pollLoopAux_isSome
    exact ⟨k, hk, by rw [Nat.zero_add]; exact (pollContinue_min_iff _ _ _).mpr hmin⟩
  obtain ⟨k', hk'⟩ := Option.isSome_iff_exists.mp hpoll
  unfold RenameThreadPool
  rw [hsub]
  simp [hk']

/-- Witness for C7 as amended: the single worker renamed itself and
incremented the done count but never parked, its future then timed out in
the final check; the call still returns. -/
theorem renameThreadPool_returns_witness :
    (RenameThreadPool 10 "net" (fun _ => 1) (fun _ => 1) (fun _ => 1)
      (fun _ => { valid := true, timedOut := true })).isSome = true :=
  renameThreadPool_returns_when_done_bound_met 10 "net" (fun _ => 1) (fun _ => 1)
    (fun _ => 1) (fun _ => { valid := true, timedOut := true }) [0] 0
    (by rfl) (by decide) (by decide)

/-- C5.  In the final per-future check, when every future before slot i
settled in time and slot i's future is valid but timed out, the check logs
exactly the one warning naming the base name and slot i, makes exactly one
further notify_all broadcast, and stops: the result does not depend on the
futures after slot i, and the function returns a value rather than raising
anything. -/
theorem finalCheck_first_timeout (baseName : String) (pre : List (Nat × FutureObs))
    (i : Nat) (rest : List (Nat × FutureObs))
    (hpre : ∀ p ∈ pre, ((p.2).valid && (p.2).timedOut) = false) :
    finalCheck baseName (pre ++ (i, { valid := true, timedOut := true }) :: rest) =
      ([timeoutLogMsg baseName i], 1) := by
  induction pre with
  | nil => simp [finalCheck]
  | cons q qs ih =>
    have hq : ((q.2).valid && (q.2).timedOut) = false :=
      hpre q (List.mem_cons_self q qs)
    have hqs : ∀ p ∈ qs, ((p.2).valid && (p.2).timedOut) = false :=
      fun p hp => hpre p (List.mem_cons_of_mem q hp)
    obtain ⟨j, f⟩ := q
    rw [List.cons_append]
    simp only at hq
    simp only [finalCheck, hq, Bool.false_eq_true, if_false]
    exact ih hqs

/-- Witness for C5: the future of slot 0 settled, slot 1 timed out, slot 2
is never looked at. -/
theorem finalCheck_first_timeout_witness :
    finalCheck "worker"
      [(0, { valid := true, timedOut := false }),
       (1, { valid := true, timedOut := true }),
       (2, { valid := true, timedOut := true })] =
      ([timeoutLogMsg "worker" 1], 1) :=
  finalCheck_first_timeout "worker" [(0, { valid := true, timedOut := false })] 1
    [(2, { valid := true, timedOut := true })] (by decide)

/-- Updating one worker's program counter to a value on the same side of
the counted threshold leaves the set of counted workers unchanged. -/
theorem filter_pc_update_eq {N : Nat} (pc : Fin N → Nat) (i : Fin N) (v : Nat)
    (h : 2 ≤ v ↔ 2 ≤ pc i) :
    Finset.univ.filter (fun j : Fin N => 2 ≤ Function.update pc i v j) =
      Finset.univ.filter (fun j : Fin N => 2 ≤ pc j) := by
  ext j
  simp only [Finset.mem_filter, Finset.mem_univ, true_and, Function.update_apply]
  by_cases hji : j = i
  · subst hji
    simp only [if_pos rfl]
    exact h
  · simp [hji]

/-- Moving one uncounted worker's program counter to 2 adds exactly that
worker to the set of counted workers. -/
theorem filter_pc_update_insert {N : Nat} (pc : Fin N → Nat) (i : Fin N)
    (h : ¬ 2 ≤ pc i) :
    Finset.univ.filter (fun j : Fin N => 2 ≤ Function.update pc i 2 j) =
      insert i (Finset.univ.filter (fun j : Fin N => 2 ≤ pc j)) := by
  ext j
  simp only [Finset.mem_filter, Finset.mem_univ, true_and, Finset.mem_insert,
    Function.update_apply]
  by_cases hji : j = i
  · subst hji
    simp [h]
  · simp [hji]

/-- C9.  In every state reachable by interleaved worker steps from barrier
entry, every worker whose program counter has passed its rename step
already carries the suffixed name, and the shared done counter equals the
number of workers that have performed their increment.  So the rename of a
worker happens before its increment, the increments are what the counter
reports to the barrier, and when the barrier observes the counter and
releases, every worker the counter accounts for has already been renamed:
the barrier cannot return with such a worker unrenamed. -/
theorem rename_happens_before_count {N : Nat} (baseName : String)
    (names0 : Fin N → String) (s : BarrierState N)
    (h : BarrierReachable baseName names0 s) :
    (∀ i : Fin N, 1 ≤ s.pc i → s.names i = taskThreadName baseName i.val) ∧
    s.doneCnt = (Finset.univ.filter (fun i : Fin N => 2 ≤ s.pc i)).card := by
  induction h with
  | init =>
    constructor
    · intro i hi
      simp [initBarrier] at hi
    · simp [initBarrier]
  | step hr hs ih =>
    obtain ⟨ih1, ih2⟩ := ih
    cases hs with
    | rename i _ hpc =>
      rename_i sPre
      constructor
      · intro j hj
        by_cases hji : j = i
        · subst hji
          simp [Function.update_same]
        · simp only [Function.update_noteq hji] at hj ⊢
          exact ih1 j hj
      · show sPre.doneCnt =
          (Finset.univ.filter (fun j => 2 ≤ Function.update sPre.pc i 1 j)).card
        rw [ih2]
        congr 1
        exact (filter_pc_update_eq sPre.pc i 1 (by omega)).symm
    | incDone i _ hpc =>
      rename_i sPre
      constructor
      · intro j hj
        by_cases hji : j = i
        · exact ih1 j (by rw [hji]; omega)
        · simp only [Function.update_noteq hji] at hj
          exact ih1 j hj
      · show sPre.doneCnt + 1 =
          (Finset.univ.filter (fun j => 2 ≤ Function.update sPre.pc i 2 j)).card
        rw [filter_pc_update_insert sPre.pc i (by omega)]
        rw [Finset.card_insert_of_not_mem (by simp [Finset.mem_filter, hpc])]
        rw [ih2]
    | park i _ hpc =>
      rename_i sPre
      constructor
      · intro j hj
        by_cases hji : j = i
        · exact ih1 j (by rw [hji]; omega)
        · simp only [Function.update_noteq hji] at hj
          exact ih1 j hj
      · show sPre.doneCnt =
          (Finset.univ.filter (fun j => 2 ≤ Function.update sPre.pc i 3 j)).card
        rw [ih2]
        congr 1
        exact (filter_pc_update_eq sPre.pc i 3 (by omega)).symm

/-- Witness for C9: one worker runs rename then the increment; in the
reached state the worker carries the suffixed name and the counter
reports it. -/
theorem rename_happens_before_count_witness :
    demoBarrierS2.names 0 = taskThreadName "w" 0 ∧
    demoBarrierS2.doneCnt =
      (Finset.univ.filter (fun i : Fin 1 => 2 ≤ demoBarrierS2.pc i)).card := by
  have hreach : BarrierReachable "w" (fun _ => "") demoBarrierS2 :=
    BarrierReachable.step
      (BarrierReachable.step BarrierReachable.init
        (WorkerStep.rename 0 (initBarrier 1 (fun _ => "")) rfl))
      (WorkerStep.incDone 0 demoBarrierS1 (by simp [demoBarrierS1]))
  have h := rename_happens_before_count "w" (fun _ => "") demoBarrierS2 hreach
  exact ⟨h.1 0 (by simp [demoBarrierS2, demoBarrierS1]), h.2⟩
